import Mathlib

/-!
# Verification of the lmdeploy decode-time core

Shallow embedding of the logit post-processing kernels
(`sampling_penalty_kernels.cu`) and the batch-scheduler primitives
(`LlamaBatch.h`) of the turbomind engine, with proofs of the spec's
testable properties.

Floating-point element types (`float`, `half`, `__nv_bfloat16`) are
modelled by ℚ: the arithmetic performed by the kernels is exact over ℚ,
which realises the spec's "up to floating-point rounding" equivalences.
`getMaxValue<T>()` is type dependent and is modelled by a parameter
`maxT : ℚ`; the `half` instantiation fixes it to 65504.

Buffers are total functions from indices to values; a kernel becomes a
function from the pre-state buffer to the post-state buffer.  Grid-stride
loops whose iterations touch pairwise distinct cells (the temperature
kernels) are modelled pointwise; the two-phase repetition-penalty kernels,
whose write phase may hit one cell from several history positions, are
modelled as an explicit fold over history positions (all colliding writes
carry the same value computed from the pre-state, so the sequential fold
is the parallel semantics).
-/

namespace Turbomind

/-- `ε = 1e-6`, the temperature regulariser used by every temperature
kernel (`1.f / (temperature + 1e-6f)`). -/
def tempEps : ℚ := 1 / 1000000

/-- `getMaxValue<half>() = 65504`, the largest finite `half`; the `half2`
kernels hard-code `-65504.0f` as their mask value. -/
def halfMaxVal : ℚ := 65504

/-- `applyTemperaturePenalty` (scalar/generic kernel): grid-stride loop
over `index < m * vocab_size_padd`; in-vocab columns get
`(logits[index] + bias_val) * temperature_inverse` (bias read at
`index % vocab_size_padd`, zero when the pointer is null), padding
columns get `-MAX_T_VAL`. -/
def applyTemperaturePenalty (maxT : ℚ) (logits : ℕ → ℚ) (bias : Option (ℕ → ℚ))
    (temperature_inverse : ℚ) (m vocab_size vocab_size_padd : ℕ) : ℕ → ℚ :=
  fun index =>
    if index < m * vocab_size_padd then
      let bias_val : ℚ := match bias with
        | none => 0
        | some b => b (index % vocab_size_padd)
      if index % vocab_size_padd < vocab_size then
        (logits index + bias_val) * temperature_inverse
      else
        -maxT
    else
      logits index

/-- `invokeApplyTemperaturePenalty`, generic branch: computes
`temperature_inverse = 1 / (temperature + 1e-6)` and launches the scalar
kernel. -/
def invokeApplyTemperaturePenalty (maxT : ℚ) (logits : ℕ → ℚ) (bias : Option (ℕ → ℚ))
    (temperature : ℚ) (batch_size vocab_size vocab_size_padd : ℕ) : ℕ → ℚ :=
  applyTemperaturePenalty maxT logits bias (1 / (temperature + tempEps))
    batch_size vocab_size vocab_size_padd

/-- `applyTemperaturePenalty<half2>` specialization, expressed on the
element-indexed buffer: element `e` lives in `half2` pair `e / 2`; the
pair index within the row is `(e / 2) % (vocab_size_padded / 2)`.  A pair
is loaded, bias-added (bias pair read at `vocab_idx`) and scaled only
when `vocab_idx < vocab_size / 2`; otherwise nothing is stored (the
`mask_val` local is computed but the store sits inside the
`vocab_idx < half_vocab_size` branch), so padding elements keep their
previous contents. -/
def applyTemperaturePenaltyHalf2 (logits : ℕ → ℚ) (bias : Option (ℕ → ℚ))
    (temperature_inverse : ℚ) (batch_size vocab_size vocab_size_padded : ℕ) : ℕ → ℚ :=
  fun e =>
    let pairIndex := e / 2
    let vocab_idx := pairIndex % (vocab_size_padded / 2)
    if pairIndex < batch_size * (vocab_size_padded / 2) ∧ vocab_idx < vocab_size / 2 then
      let bias_val : ℚ := match bias with
        | none => 0
        | some b => b (vocab_idx * 2 + e % 2)
      (logits e + bias_val) * temperature_inverse
    else
      logits e

/-- `batchApplyTemperaturePenalty` (scalar/generic batched kernel):
per-row temperatures; row `index / vocab_size_padd`, column
`index % vocab_size_padd`; in-vocab columns get
`(logit + bias[vocab_idx]) * (1 / (temperatures[row] + 1e-6))`, padding
columns get `-MAX_T_VAL`, and the result is stored unconditionally. -/
def batchApplyTemperaturePenalty (maxT : ℚ) (logits : ℕ → ℚ) (bias : Option (ℕ → ℚ))
    (temperatures : ℕ → ℚ) (batch_size vocab_size vocab_size_padd : ℕ) : ℕ → ℚ :=
  fun index =>
    if index < batch_size * vocab_size_padd then
      let batch_idx := index / vocab_size_padd
      let vocab_idx := index % vocab_size_padd
      if vocab_idx < vocab_size then
        let logit : ℚ := match bias with
          | none => logits index
          | some b => logits index + b vocab_idx
        logit * (1 / (temperatures batch_idx + tempEps))
      else
        -maxT
    else
      logits index

/-- `batchApplyTemperaturePenalty_v2<T, vec_size>`: one block row per
batch row; each thread handles a `vec_size`-aligned chunk of the row.
Within a covered chunk, element at row position `p < vocab_size` is
scaled by `1 / (temperatures[row] + 1e-6)` and every other element of the
chunk is overwritten with `-getMaxValue<T>()`.  The `bias` parameter is
never read.  (A chunk is covered exactly when its start
`p / vec_size * vec_size` is `< vocab_size_padded`, which for any
`p < vocab_size_padded` always holds; the invoker picks `vec_size`
dividing `vocab_size_padded` so chunks never straddle rows.) -/
def batchApplyTemperaturePenalty_v2 (maxT : ℚ) (vec_size : ℕ) (logits : ℕ → ℚ)
    (bias : Option (ℕ → ℚ)) (temperatures : ℕ → ℚ)
    (batch_size vocab_size vocab_size_padded : ℕ) : ℕ → ℚ :=
  fun index =>
    let bi := index / vocab_size_padded
    let p := index % vocab_size_padded
    let chunkStart := p / vec_size * vec_size
    if bi < batch_size ∧ chunkStart < vocab_size_padded then
      if p < vocab_size then
        logits index * (1 / (temperatures bi + tempEps))
      else
        -maxT
    else
      logits index

/-- `invokeBatchApplyTemperaturePenalty_v2`: dispatches on the padded
width — `vec_size = 4` when `4 ∣ vocab_size_padded`, else `2` when
`2 ∣ vocab_size_padded`, else `1`. -/
def invokeBatchApplyTemperaturePenalty_v2 (maxT : ℚ) (logits : ℕ → ℚ)
    (bias : Option (ℕ → ℚ)) (temperatures : ℕ → ℚ)
    (batch_size vocab_size vocab_size_padded : ℕ) : ℕ → ℚ :=
  let vec_size : ℕ :=
    if vocab_size_padded % 4 = 0 then 4
    else if vocab_size_padded % 2 = 0 then 2
    else 1
  batchApplyTemperaturePenalty_v2 maxT vec_size logits bias temperatures
    batch_size vocab_size vocab_size_padded

end Turbomind

namespace Turbomind

/-- C1 helper: the optional bias read at column `v`, zero when absent. -/
def biasAt (bias : Option (ℕ → ℚ)) (v : ℕ) : ℚ :=
  match bias with
  | none => 0
  | some b => b v

end Turbomind

open Turbomind

/-- **C1.** Temperature scaling, scalar path: for every logits buffer,
optional bias, temperature τ > 0, every row `r < m` and column
`v < vocab_size_padd`, the kernel writes
`(L[v] + B[v]) / (τ + 1e-6)` at in-vocab columns (bias zero when
absent) and `-MAX_T_VAL` at padding columns. -/
theorem C1_temperature_scalar (maxT τ : ℚ) (L : ℕ → ℚ) (B : Option (ℕ → ℚ))
    (m vocab_size vocab_size_padd r v : ℕ)
    (hτ : 0 < τ) (hr : r < m) (hv : v < vocab_size_padd) :
    (v < vocab_size →
      invokeApplyTemperaturePenalty maxT L B τ m vocab_size vocab_size_padd
          (r * vocab_size_padd + v)
        = (L (r * vocab_size_padd + v) + biasAt B v) / (τ + tempEps)) ∧
    (vocab_size ≤ v →
      invokeApplyTemperaturePenalty maxT L B τ m vocab_size vocab_size_padd
          (r * vocab_size_padd + v)
        = -maxT) := by
  have hmod : (r * vocab_size_padd + v) % vocab_size_padd = v := by
    rw [Nat.add_comm, Nat.add_mul_mod_self_right]
    exact Nat.mod_eq_of_lt hv
  have hlt : r * vocab_size_padd + v < m * vocab_size_padd := by
    calc r * vocab_size_padd + v < r * vocab_size_padd + vocab_size_padd := by omega
    _ = (r + 1) * vocab_size_padd := by ring
    _ ≤ m * vocab_size_padd := Nat.mul_le_mul_right _ (by omega)
  constructor
  · intro hvv
    unfold invokeApplyTemperaturePenalty applyTemperaturePenalty
    rw [if_pos hlt]
    simp only [hmod]
    rw [if_pos hvv, one_div, div_eq_mul_inv]
    cases B <;> rfl
  · intro hvv
    unfold invokeApplyTemperaturePenalty applyTemperaturePenalty
    rw [if_pos hlt]
    simp only [hmod]
    rw [if_neg (by omega : ¬ v < vocab_size)]

/-- **C1 witness.** Concrete instance: one row, `vocab_size = 2` padded
to 4, temperature 1, bias constantly 1. -/
theorem C1_temperature_scalar_witness :
    ((1 : ℕ) < 2 →
      invokeApplyTemperaturePenalty 65504 (fun i => (i : ℚ)) (some fun _ => 1) 1 1 2 4
          (0 * 4 + 1)
        = (((0 * 4 + 1 : ℕ) : ℚ) + biasAt (some fun _ => 1) 1) / (1 + tempEps)) ∧
    ((2 : ℕ) ≤ 3 →
      invokeApplyTemperaturePenalty 65504 (fun i => (i : ℚ)) (some fun _ => 1) 1 1 2 4
          (0 * 4 + 3)
        = -65504) :=
  ⟨(C1_temperature_scalar 65504 1 (fun i => (i : ℚ)) (some fun _ => 1) 1 2 4 0 1
      (by norm_num) (by norm_num) (by norm_num)).1,
   (C1_temperature_scalar 65504 1 (fun i => (i : ℚ)) (some fun _ => 1) 1 2 4 0 3
      (by norm_num) (by norm_num) (by norm_num)).2⟩

/-- **C10.** The v2 batched temperature kernel (and its invoker) never
reads its `bias` argument: runs differing only in the bias produce
identical output buffers. -/
theorem C10_v2_bias_independence (maxT : ℚ) (L : ℕ → ℚ) (B₁ B₂ : Option (ℕ → ℚ))
    (temps : ℕ → ℚ) (batch_size vocab_size vocab_size_padded : ℕ) :
    invokeBatchApplyTemperaturePenalty_v2 maxT L B₁ temps
        batch_size vocab_size vocab_size_padded
      = invokeBatchApplyTemperaturePenalty_v2 maxT L B₂ temps
          batch_size vocab_size vocab_size_padded := rfl

/-- **C2 counterexample.** The half2 specialization does **not** write the
sentinel in padding columns (its store sits inside the
`vocab_idx < half_vocab_size` branch), so with `vocab_size = 2` padded to
4, zero logits and no bias, the half2 path leaves column 2 at `0` while
the scalar path writes `-65504` there: the output buffers differ. -/
theorem C2_counterexample :
    applyTemperaturePenaltyHalf2 (fun _ => 0) none (1 / (1 + tempEps)) 1 2 4 2 = 0 ∧
    invokeApplyTemperaturePenalty halfMaxVal (fun _ => 0) none 1 1 2 4 2 = -65504 ∧
    applyTemperaturePenaltyHalf2 (fun _ => 0) none (1 / (1 + tempEps)) 1 2 4 2
      ≠ invokeApplyTemperaturePenalty halfMaxVal (fun _ => 0) none 1 1 2 4 2 := by
  refine ⟨?_, ?_, ?_⟩ <;> decide

namespace Turbomind

/-- Evaluation of the scalar temperature kernel at row `r`, column `c`. -/
lemma applyTemperaturePenalty_eval (maxT : ℚ) (L : ℕ → ℚ) (B : Option (ℕ → ℚ))
    (tinv : ℚ) (m vocab_size vocab_size_padd r c : ℕ)
    (hr : r < m) (hc : c < vocab_size_padd) :
    applyTemperaturePenalty maxT L B tinv m vocab_size vocab_size_padd
        (r * vocab_size_padd + c)
      = if c < vocab_size then (L (r * vocab_size_padd + c) + biasAt B c) * tinv
        else -maxT := by
  have hmod : (r * vocab_size_padd + c) % vocab_size_padd = c := by
    rw [Nat.add_comm, Nat.add_mul_mod_self_right]
    exact Nat.mod_eq_of_lt hc
  have hlt : r * vocab_size_padd + c < m * vocab_size_padd := by
    calc r * vocab_size_padd + c < r * vocab_size_padd + vocab_size_padd := by omega
    _ = (r + 1) * vocab_size_padd := by ring
    _ ≤ m * vocab_size_padd := Nat.mul_le_mul_right _ (by omega)
  unfold applyTemperaturePenalty
  simp only [hmod]
  rw [if_pos hlt]
  by_cases hcv : c < vocab_size
  · rw [if_pos hcv, if_pos hcv]
    cases B <;> rfl
  · rw [if_neg hcv, if_neg hcv]

/-- Evaluation of the half2 specialization at row `r`, column `c` (both
vocabulary sizes even): in-vocab columns are processed exactly as the
scalar kernel processes them, padding columns are left untouched. -/
lemma applyTemperaturePenaltyHalf2_eval (L : ℕ → ℚ) (B : Option (ℕ → ℚ))
    (tinv : ℚ) (batch_size vocab_size vocab_size_padd r c : ℕ)
    (h2v : vocab_size % 2 = 0) (h2p : vocab_size_padd % 2 = 0)
    (hr : r < batch_size) (hc : c < vocab_size_padd) :
    applyTemperaturePenaltyHalf2 L B tinv batch_size vocab_size vocab_size_padd
        (r * vocab_size_padd + c)
      = if c < vocab_size then (L (r * vocab_size_padd + c) + biasAt B c) * tinv
        else L (r * vocab_size_padd + c) := by
  obtain ⟨q, hq⟩ : ∃ q, vocab_size_padd = 2 * q := ⟨vocab_size_padd / 2, by omega⟩
  obtain ⟨w, hw⟩ : ∃ w, vocab_size = 2 * w := ⟨vocab_size / 2, by omega⟩
  have hq0 : 0 < q := by omega
  have he2 : (r * vocab_size_padd + c) / 2 = r * q + c / 2 := by
    rw [hq, show r * (2 * q) + c = 2 * (r * q) + c by ring,
      Nat.mul_add_div (by norm_num)]
  have hvq : vocab_size_padd / 2 = q := by omega
  have hwq : vocab_size / 2 = w := by omega
  have hcq : c / 2 < q := by omega
  have hmodq : (r * q + c / 2) % q = c / 2 := by
    rw [Nat.mul_comm, Nat.mul_add_mod]
    exact Nat.mod_eq_of_lt hcq
  have he2m : (r * vocab_size_padd + c) % 2 = c % 2 := by
    rw [hq, show r * (2 * q) + c = 2 * (r * q) + c by ring, Nat.mul_add_mod]
  have hlt2 : r * q + c / 2 < batch_size * q := by
    calc r * q + c / 2 < r * q + q := by omega
    _ = (r + 1) * q := by ring
    _ ≤ batch_size * q := Nat.mul_le_mul_right _ (by omega)
  unfold applyTemperaturePenaltyHalf2
  simp only [he2, hvq, hwq, hmodq, he2m]
  by_cases hcv : c < vocab_size
  · have hcw : c / 2 < w := by omega
    rw [if_pos ⟨hlt2, hcw⟩, if_pos hcv]
    have hbidx : c / 2 * 2 + c % 2 = c := by omega
    cases B with
    | none => rfl
    | some b => simp only [hbidx, biasAt]
  · have hcw : ¬ c / 2 < w := by omega
    rw [if_neg (fun h => hcw h.2), if_neg hcv]

/-- The v2 invoker (any vector width it may dispatch to) computes exactly
the batched scalar kernel with the bias pointer null. -/
lemma invoke_v2_eq_batchScalar (maxT : ℚ) (L : ℕ → ℚ) (B : Option (ℕ → ℚ))
    (temps : ℕ → ℚ) (batch_size vocab_size vocab_size_padd : ℕ)
    (hp : 0 < vocab_size_padd) (index : ℕ) :
    invokeBatchApplyTemperaturePenalty_v2 maxT L B temps
        batch_size vocab_size vocab_size_padd index
      = batchApplyTemperaturePenalty maxT L none temps
          batch_size vocab_size vocab_size_padd index := by
  unfold invokeBatchApplyTemperaturePenalty_v2 batchApplyTemperaturePenalty_v2
    batchApplyTemperaturePenalty
  by_cases hbi : index < batch_size * vocab_size_padd
  · have hbilt : index / vocab_size_padd < batch_size :=
      (Nat.div_lt_iff_lt_mul hp).mpr hbi
    have hples : index % vocab_size_padd < vocab_size_padd := Nat.mod_lt _ hp
    rw [if_pos ⟨hbilt, lt_of_le_of_lt (Nat.div_mul_le_self _ _) hples⟩, if_pos hbi]
  · have hnb : ¬ index / vocab_size_padd < batch_size :=
      fun h => hbi ((Nat.div_lt_iff_lt_mul hp).mp h)
    rw [if_neg (fun h => hnb h.1), if_neg hbi]

end Turbomind

/-- **C2 (amended).** Vectorized-path refinement, as the code actually
behaves: (1) at every in-vocabulary column the half2 specialization
produces the same value as the scalar kernel run with the same
temperature inverse, with identical bias handling; (2) at padding columns
the half2 path leaves the buffer **unchanged** while the scalar path
writes the sentinel `-65504`; (3) the v2 kernel (through its dispatching
invoker) produces at every index exactly the output of the batched scalar
kernel with the bias pointer null — sentinels in padding included — and
hence agrees with the batched scalar path only when bias is absent. -/
theorem C2_vectorized_amended (maxT tinv : ℚ) (L : ℕ → ℚ) (B : Option (ℕ → ℚ))
    (temps : ℕ → ℚ) (batch_size vocab_size vocab_size_padd r c : ℕ)
    (h2v : vocab_size % 2 = 0) (h2p : vocab_size_padd % 2 = 0)
    (hr : r < batch_size) (hc : c < vocab_size_padd) :
    (c < vocab_size →
      applyTemperaturePenaltyHalf2 L B tinv batch_size vocab_size vocab_size_padd
          (r * vocab_size_padd + c)
        = applyTemperaturePenalty halfMaxVal L B tinv batch_size vocab_size
            vocab_size_padd (r * vocab_size_padd + c)) ∧
    (vocab_size ≤ c →
      applyTemperaturePenaltyHalf2 L B tinv batch_size vocab_size vocab_size_padd
          (r * vocab_size_padd + c) = L (r * vocab_size_padd + c) ∧
      applyTemperaturePenalty halfMaxVal L B tinv batch_size vocab_size
          vocab_size_padd (r * vocab_size_padd + c) = -halfMaxVal) ∧
    (∀ index, invokeBatchApplyTemperaturePenalty_v2 maxT L B temps
        batch_size vocab_size vocab_size_padd index
      = batchApplyTemperaturePenalty maxT L none temps
          batch_size vocab_size vocab_size_padd index) := by
  have hp : 0 < vocab_size_padd := by omega
  refine ⟨?_, ?_, fun index => invoke_v2_eq_batchScalar _ _ _ _ _ _ _ hp index⟩
  · intro hcv
    rw [applyTemperaturePenaltyHalf2_eval L B tinv _ _ _ _ _ h2v h2p hr hc,
      applyTemperaturePenalty_eval halfMaxVal L B tinv _ _ _ _ _ hr hc,
      if_pos hcv, if_pos hcv]
  · intro hcv
    rw [applyTemperaturePenaltyHalf2_eval L B tinv _ _ _ _ _ h2v h2p hr hc,
      applyTemperaturePenalty_eval halfMaxVal L B tinv _ _ _ _ _ hr hc,
      if_neg (by omega), if_neg (by omega)]
    exact ⟨rfl, rfl⟩

/-- **C2 witness.** Concrete instance of the amended refinement:
`vocab_size = 2` padded to 4, one row, unit bias, position column 1,
and the v2/batched-scalar agreement checked at flat index 5. -/
theorem C2_vectorized_amended_witness :
    ((1 : ℕ) < 2 →
      applyTemperaturePenaltyHalf2 (fun _ => 3) (some fun _ => 1) 1 1 2 4 (0 * 4 + 1)
        = applyTemperaturePenalty halfMaxVal (fun _ => 3) (some fun _ => 1) 1 1 2 4
            (0 * 4 + 1)) ∧
    ((2 : ℕ) ≤ 1 →
      applyTemperaturePenaltyHalf2 (fun _ => 3) (some fun _ => 1) 1 1 2 4 (0 * 4 + 1)
          = (fun _ => (3 : ℚ)) (0 * 4 + 1) ∧
      applyTemperaturePenalty halfMaxVal (fun _ => 3) (some fun _ => 1) 1 1 2 4
          (0 * 4 + 1) = -halfMaxVal) ∧
    (invokeBatchApplyTemperaturePenalty_v2 1 (fun _ => 3) (some fun _ => 1)
        (fun _ => 1) 1 2 4 5
      = batchApplyTemperaturePenalty 1 (fun _ => 3) none (fun _ => 1) 1 2 4 5) := by
  obtain ⟨h1, h2, h3⟩ :=
    C2_vectorized_amended 1 1 (fun _ => 3) (some fun _ => 1) (fun _ => 1) 1 2 4 0 1
      (by norm_num) (by norm_num) (by norm_num) (by norm_num)
  exact ⟨h1, h2, h3 5⟩

namespace Turbomind

/-- `RepetitionPenaltyType` (from `sampling_penalty_kernels.h`). -/
inductive RepetitionPenaltyType
  | Additive
  | Multiplicative
  | None
deriving DecidableEq

/-- The penalized logit computed in phase 1 of both repetition-penalty
kernels: `logit - penalty` (additive),
`logit < 0 ? logit * penalty : logit / penalty` (multiplicative),
`logit` itself for `None`. -/
def applyPenalty : RepetitionPenaltyType → ℚ → ℚ → ℚ
  | .Additive, penalty, logit => logit - penalty
  | .Multiplicative, penalty, logit =>
      if logit < 0 then logit * penalty else logit / penalty
  | .None, _, logit => logit

/-- History position filter shared by both repetition-penalty kernels:
position `index` is skipped when
`index >= input_length && index < max_input_len` (interior prompt
padding), considered otherwise. -/
abbrev consideredPos (input_length max_input_length index : ℕ) : Prop :=
  ¬ (input_length ≤ index ∧ index < max_input_length)

/-- Write-back phase shared by the mutating kernels: process indices
`0, 1, …, n-1`, and at each index satisfying `P` store `vals index` into
buffer cell `keys index`.  (In the kernels all simultaneous writers of
one cell store the same value, so this sequential fold is the parallel
semantics.) -/
def penaltyFold (P : ℕ → Prop) [DecidablePred P] (keys : ℕ → ℤ) (vals : ℕ → ℚ)
    (n : ℕ) (f : ℤ → ℚ) : ℤ → ℚ :=
  (List.range n).foldl
    (fun ls i => if P i then Function.update ls (keys i) (vals i) else ls) f

lemma penaltyFold_succ (P : ℕ → Prop) [DecidablePred P] (keys : ℕ → ℤ)
    (vals : ℕ → ℚ) (n : ℕ) (f : ℤ → ℚ) :
    penaltyFold P keys vals (n + 1) f
      = if P n then
          Function.update (penaltyFold P keys vals n f) (keys n) (vals n)
        else penaltyFold P keys vals n f := by
  unfold penaltyFold
  rw [List.range_succ, List.foldl_append, List.foldl_cons, List.foldl_nil]

/-- A cell written by no processed index keeps its initial value. -/
lemma penaltyFold_miss (P : ℕ → Prop) [DecidablePred P] (keys : ℕ → ℤ)
    (vals : ℕ → ℚ) (n : ℕ) (f : ℤ → ℚ) (t : ℤ)
    (hmiss : ∀ i, i < n → P i → keys i ≠ t) :
    penaltyFold P keys vals n f t = f t := by
  induction n with
  | zero => rfl
  | succ n ih =>
    rw [penaltyFold_succ]
    by_cases hP : P n
    · rw [if_pos hP,
        Function.update_noteq (Ne.symm (hmiss n (Nat.lt_succ_self n) hP)) _ _]
      exact ih (fun i hi => hmiss i (by omega))
    · rw [if_neg hP]
      exact ih (fun i hi => hmiss i (by omega))

/-- A cell written by some processed index, when every write to a cell
carries the value `g` of that cell, ends at `g` of the cell. -/
lemma penaltyFold_hit (P : ℕ → Prop) [DecidablePred P] (keys : ℕ → ℤ)
    (vals : ℕ → ℚ) (g : ℤ → ℚ) (hv : ∀ i, P i → vals i = g (keys i))
    (n : ℕ) (f : ℤ → ℚ) (t : ℤ)
    (hhit : ∃ i, i < n ∧ P i ∧ keys i = t) :
    penaltyFold P keys vals n f t = g t := by
  induction n with
  | zero => obtain ⟨i, hi, -, -⟩ := hhit; omega
  | succ n ih =>
    rw [penaltyFold_succ]
    by_cases hP : P n
    · by_cases hk : keys n = t
      · rw [if_pos hP, ← hk, Function.update_same, hv n hP]
      · rw [if_pos hP, Function.update_noteq (fun h => hk h.symm) _ _]
        apply ih
        obtain ⟨i, hi, hPi, hki⟩ := hhit
        have : i ≠ n := fun h => hk (h ▸ hki)
        exact ⟨i, by omega, hPi, hki⟩
    · rw [if_neg hP]
      apply ih
      obtain ⟨i, hi, hPi, hki⟩ := hhit
      have : i ≠ n := fun h => hP (h ▸ hPi)
      exact ⟨i, by omega, hPi, hki⟩

/-- `batchApplyRepetitionPenalty`, one row (block `batch_idx`): phase 1
scans history positions `index < step`, skipping interior prompt padding
(`input_length ≤ index < max_input_length`), reads
`penalty_index = output_ids[index * batch_size + batch_idx]`, *asserts*
`penalty_index < vocab_size` (modelled as returning `none` when the
assertion fails), and buffers the penalized value computed from the
pre-kernel logits; phase 2 (after `__syncthreads`) stores every buffered
value.  A vocab id occurring at several positions is written the same
value each time, so it is penalized once. -/
def batchApplyRepetitionPenaltyRow (penalty_type : RepetitionPenaltyType)
    (logits : ℤ → ℚ) (penalty : ℚ) (output_ids : ℕ → ℤ)
    (batch_size batch_idx vocab_size input_length max_input_length step : ℕ) :
    Option (ℤ → ℚ) :=
  if ∀ index, index < step → consideredPos input_length max_input_length index →
      output_ids (index * batch_size + batch_idx) < (vocab_size : ℤ) then
    some (penaltyFold
      (fun index => consideredPos input_length max_input_length index)
      (fun index => output_ids (index * batch_size + batch_idx))
      (fun index => applyPenalty penalty_type penalty
        (logits (output_ids (index * batch_size + batch_idx))))
      step logits)
  else none

end Turbomind

/-- **C3.** Additive repetition penalty on history `[5, 5, 7]` over a
10-token vocabulary with penalty 1: the logits at ids 5 and 7 each drop
by exactly 1 (id 5 once, not twice — later occurrences overwrite the
same buffered value computed from the same original logit), every other
cell is unchanged, and the kernel's in-vocabulary assertion passes. -/
theorem C3_additive_history (L : ℤ → ℚ) :
    ∃ f, batchApplyRepetitionPenaltyRow .Additive L 1
        (fun i => if i = 2 then 7 else 5) 1 0 10 3 3 3 = some f
      ∧ ∀ v : ℤ, f v = if v = 5 then L 5 - 1 else if v = 7 then L 7 - 1 else L v := by
  refine ⟨_, by rw [batchApplyRepetitionPenaltyRow, if_pos (by decide)], ?_⟩
  intro v
  by_cases h5 : v = 5
  · subst h5
    rw [penaltyFold_hit _ _ _ (fun t => applyPenalty .Additive 1 (L t))
      (fun i _ => rfl) _ _ _ ⟨0, by norm_num, by decide, by norm_num⟩]
    simp [applyPenalty]
  · by_cases h7 : v = 7
    · subst h7
      rw [penaltyFold_hit _ _ _ (fun t => applyPenalty .Additive 1 (L t))
        (fun i _ => rfl) _ _ _ ⟨2, by norm_num, by decide, by norm_num⟩]
      simp [applyPenalty, h5]
    · rw [penaltyFold_miss _ _ _ _ _ _ (by
        intro i hi _ hk
        interval_cases i <;> simp_all)]
      simp [h5, h7]

namespace Turbomind

/-- `applyRepetitionPenalty` phase 1, final contents of the shared
`penalty_indices` buffer.  Positions that are interior prompt padding or
whose token id is `>= vocab_size` are `continue`d over *before* the
buffer is written, so those slots keep their initial (uninitialized)
contents `ws_idx`. -/
def repWsIdx (output_ids : ℕ → ℤ)
    (batch_size batch_idx vocab_size input_length max_input_length : ℕ)
    (ws_idx : ℕ → ℤ) (index : ℕ) : ℤ :=
  if consideredPos input_length max_input_length index ∧
      output_ids (index * batch_size + batch_idx) < (vocab_size : ℤ) then
    output_ids (index * batch_size + batch_idx)
  else ws_idx index

/-- `applyRepetitionPenalty` phase 1, final contents of the shared
`penalty_logits` buffer (penalized values computed from the pre-kernel
logits); unwritten slots keep their initial contents `ws_val`. -/
def repWsVal (penalty_type : RepetitionPenaltyType) (logits : ℤ → ℚ)
    (penalty : ℚ) (output_ids : ℕ → ℤ)
    (batch_size batch_idx vocab_size input_length max_input_length : ℕ)
    (ws_val : ℕ → ℚ) (index : ℕ) : ℚ :=
  if consideredPos input_length max_input_length index ∧
      output_ids (index * batch_size + batch_idx) < (vocab_size : ℤ) then
    applyPenalty penalty_type penalty
      (logits (output_ids (index * batch_size + batch_idx)))
  else ws_val index

/-- `applyRepetitionPenalty` (single-penalty kernel), one row: phase 1
fills the shared workspace (skipping interior padding positions and, with
a `continue` rather than an assert, token ids `>= vocab_size`); phase 2
re-checks `penalty_indices[index] >= vocab_size` on the *buffered* value
and stores `penalty_logits[index]` at the buffered cell otherwise.  The
shared workspace is uninitialized at kernel entry; its initial contents
are the explicit parameters `ws_idx`/`ws_val`.  The unused `start_ids`
parameter of the C++ kernel is omitted. -/
def applyRepetitionPenaltyRow (penalty_type : RepetitionPenaltyType)
    (logits : ℤ → ℚ) (penalty : ℚ) (output_ids : ℕ → ℤ)
    (batch_size batch_idx vocab_size input_length max_input_length step : ℕ)
    (ws_idx : ℕ → ℤ) (ws_val : ℕ → ℚ) : ℤ → ℚ :=
  penaltyFold
    (fun index => consideredPos input_length max_input_length index ∧
      repWsIdx output_ids batch_size batch_idx vocab_size input_length
        max_input_length ws_idx index < (vocab_size : ℤ))
    (repWsIdx output_ids batch_size batch_idx vocab_size input_length
      max_input_length ws_idx)
    (repWsVal penalty_type logits penalty output_ids batch_size batch_idx
      vocab_size input_length max_input_length ws_val)
    step logits

end Turbomind

/-- **C4.** Multiplicative repetition penalty: for every token id `t`
emitted at some considered history position (all considered history ids
in vocabulary, so the kernel's assertion passes), the new logit is
`logit * penalty` when the original logit is negative and
`logit / penalty` otherwise. -/
theorem C4_multiplicative (L : ℤ → ℚ) (penalty : ℚ) (output_ids : ℕ → ℤ)
    (batch_size batch_idx vocab_size input_length max_input_length step : ℕ)
    (t : ℤ)
    (hin : ∀ index, index < step →
      consideredPos input_length max_input_length index →
      output_ids (index * batch_size + batch_idx) < (vocab_size : ℤ))
    (happ : ∃ index, index < step ∧
      consideredPos input_length max_input_length index ∧
      output_ids (index * batch_size + batch_idx) = t) :
    ∃ f, batchApplyRepetitionPenaltyRow .Multiplicative L penalty output_ids
        batch_size batch_idx vocab_size input_length max_input_length step
        = some f
      ∧ f t = if L t < 0 then L t * penalty else L t / penalty := by
  refine ⟨_, by rw [batchApplyRepetitionPenaltyRow, if_pos hin], ?_⟩
  rw [penaltyFold_hit _ _ _
    (fun x => applyPenalty .Multiplicative penalty (L x)) (fun i _ => rfl)
    _ _ _ happ]
  rfl

/-- **C4 witness.** Original logit `-2` with penalty `2` becomes `-4`;
original logit `2` with penalty `2` becomes `1` (history `[0, 1]`,
vocabulary 10). -/
theorem C4_multiplicative_witness :
    ∃ f, batchApplyRepetitionPenaltyRow .Multiplicative
        (fun z => if z = 0 then -2 else 2) 2 (fun i => (i : ℤ)) 1 0 10 2 2 2
        = some f
      ∧ f 0 = -4 ∧ f 1 = 1 := by
  obtain ⟨f, hf, h0⟩ := C4_multiplicative (fun z => if z = 0 then -2 else 2) 2
    (fun i => (i : ℤ)) 1 0 10 2 2 2 0 (by decide) ⟨0, by decide⟩
  obtain ⟨f', hf', h1⟩ := C4_multiplicative (fun z => if z = 0 then -2 else 2) 2
    (fun i => (i : ℤ)) 1 0 10 2 2 2 1 (by decide) ⟨1, by decide⟩
  rw [hf] at hf'
  have hff : f = f' := Option.some.inj hf'
  refine ⟨f, hf, ?_, ?_⟩
  · rw [h0]; norm_num
  · rw [hff, h1]; norm_num

/-- **C6 counterexample.** The batched repetition-penalty kernel does
**not** silently skip an out-of-vocabulary history id: with history
`[12]` over a 10-token vocabulary its `assert(penalty_index < vocab_size)`
fails (modelled as `none`), contradicting the claim that both kernels
skip such entries without failing. -/
theorem C6_counterexample :
    batchApplyRepetitionPenaltyRow .Additive (fun _ => 0) 1 (fun _ => 12)
      1 0 10 1 1 1 = none := by
  rw [batchApplyRepetitionPenaltyRow, if_neg]
  intro h
  have h0 := h 0 (by norm_num) (by decide)
  norm_num at h0

/-- **C6 (amended).** Out-of-vocabulary history ids: the single-penalty
kernel `continue`s over them in both phases, so — provided the
uninitialized workspace slots it never writes read as out-of-range
values — every cell not named by a considered in-vocabulary history
entry is left unchanged and the kernel never fails; the batched per-row
kernel instead fails its `assert(penalty_index < vocab_size)` whenever a
considered history entry is at or beyond `vocab_size`. -/
theorem C6_oov_handling (penalty_type : RepetitionPenaltyType) (L : ℤ → ℚ)
    (penalty : ℚ) (output_ids : ℕ → ℤ)
    (batch_size batch_idx vocab_size input_length max_input_length step : ℕ)
    (ws_idx : ℕ → ℤ) (ws_val : ℕ → ℚ)
    (hws : ∀ i, (vocab_size : ℤ) ≤ ws_idx i) :
    (∀ t : ℤ,
      (∀ index, index < step →
        consideredPos input_length max_input_length index →
        output_ids (index * batch_size + batch_idx) < (vocab_size : ℤ) →
        output_ids (index * batch_size + batch_idx) ≠ t) →
      applyRepetitionPenaltyRow penalty_type L penalty output_ids batch_size
        batch_idx vocab_size input_length max_input_length step ws_idx ws_val t
        = L t) ∧
    ((∃ index, index < step ∧
        consideredPos input_length max_input_length index ∧
        (vocab_size : ℤ) ≤ output_ids (index * batch_size + batch_idx)) →
      batchApplyRepetitionPenaltyRow penalty_type L penalty output_ids
        batch_size batch_idx vocab_size input_length max_input_length step
        = none) := by
  constructor
  · intro t hnot
    apply penaltyFold_miss
    intro i hi hP
    obtain ⟨hc, hlt⟩ := hP
    unfold repWsIdx at hlt ⊢
    by_cases hreal : consideredPos input_length max_input_length i ∧
        output_ids (i * batch_size + batch_idx) < (vocab_size : ℤ)
    · rw [if_pos hreal]
      exact hnot i hi hreal.1 hreal.2
    · rw [if_neg hreal] at hlt
      exact absurd hlt (not_lt.mpr (hws i))
  · rintro ⟨index, hi, hc, hge⟩
    rw [batchApplyRepetitionPenaltyRow, if_neg]
    intro h
    exact absurd (h index hi hc) (not_lt.mpr hge)

/-- **C6 witness.** History `[12]` over a 10-token vocabulary,
workspace reading as the out-of-range value 10: the single kernel leaves
cell 3 unchanged while the batched kernel fails its assertion. -/
theorem C6_oov_handling_witness :
    applyRepetitionPenaltyRow .Additive (fun _ => (5 : ℚ)) 1 (fun _ => 12)
        1 0 10 1 1 1 (fun _ => 10) (fun _ => 0) 3 = (fun _ => (5 : ℚ)) 3 ∧
    batchApplyRepetitionPenaltyRow .Additive (fun _ => (5 : ℚ)) 1 (fun _ => 12)
        1 0 10 1 1 1 = none := by
  obtain ⟨h1, h2⟩ := C6_oov_handling .Additive (fun _ => (5 : ℚ)) 1
    (fun _ => 12) 1 0 10 1 1 1 (fun _ => 10) (fun _ => 0) (fun _ => by norm_num)
  exact ⟨h1 3 (by decide), h2 ⟨0, by decide⟩⟩

/-- **C7.** Frame property of the repetition penalty: only history
positions with `index < input_length` or `index ≥ max_input_length` are
considered, and a token id never emitted at a considered position keeps
its logit — in the batched kernel (given its assertion passes) and in the
single-penalty kernel (given out-of-range uninitialized workspace). -/
theorem C7_repetition_frame (penalty_type : RepetitionPenaltyType) (L : ℤ → ℚ)
    (penalty : ℚ) (output_ids : ℕ → ℤ)
    (batch_size batch_idx vocab_size input_length max_input_length step : ℕ)
    (t : ℤ) (ws_idx : ℕ → ℤ) (ws_val : ℕ → ℚ)
    (hin : ∀ index, index < step →
      consideredPos input_length max_input_length index →
      output_ids (index * batch_size + batch_idx) < (vocab_size : ℤ))
    (hws : ∀ i, (vocab_size : ℤ) ≤ ws_idx i)
    (hnot : ∀ index, index < step →
      consideredPos input_length max_input_length index →
      output_ids (index * batch_size + batch_idx) ≠ t) :
    (∃ f, batchApplyRepetitionPenaltyRow penalty_type L penalty output_ids
        batch_size batch_idx vocab_size input_length max_input_length step
        = some f ∧ f t = L t) ∧
    applyRepetitionPenaltyRow penalty_type L penalty output_ids batch_size
      batch_idx vocab_size input_length max_input_length step ws_idx ws_val t
      = L t := by
  constructor
  · refine ⟨_, by rw [batchApplyRepetitionPenaltyRow, if_pos hin], ?_⟩
    exact penaltyFold_miss _ _ _ _ _ _ (fun i hi hc => hnot i hi hc)
  · apply penaltyFold_miss
    intro i hi hP
    obtain ⟨hc, hlt⟩ := hP
    unfold repWsIdx at hlt ⊢
    by_cases hreal : consideredPos input_length max_input_length i ∧
        output_ids (i * batch_size + batch_idx) < (vocab_size : ℤ)
    · rw [if_pos hreal]
      exact hnot i hi hreal.1
    · rw [if_neg hreal] at hlt
      exact absurd hlt (not_lt.mpr (hws i))

/-- **C7 witness.** History positions `[4, 6, 7]` with
`input_length = 1`, `max_input_length = 2`: position 1 (token 6) is
interior prompt padding and is skipped, so the logit of token 6 is
unchanged in both kernels. -/
theorem C7_repetition_frame_witness :
    (∃ f, batchApplyRepetitionPenaltyRow .Additive (fun _ => (9 : ℚ)) 1
        (fun i => if i = 0 then 4 else if i = 1 then 6 else 7) 1 0 10 1 2 3
        = some f ∧ f 6 = (fun _ => (9 : ℚ)) 6) ∧
    applyRepetitionPenaltyRow .Additive (fun _ => (9 : ℚ)) 1
      (fun i => if i = 0 then 4 else if i = 1 then 6 else 7) 1 0 10 1 2 3
      (fun _ => 10) (fun _ => 0) 6 = (fun _ => (9 : ℚ)) 6 :=
  C7_repetition_frame .Additive (fun _ => (9 : ℚ)) 1
    (fun i => if i = 0 then 4 else if i = 1 then 6 else 7) 1 0 10 1 2 3 6
    (fun _ => 10) (fun _ => 0) (by decide) (fun _ => by norm_num) (by decide)

namespace Turbomind

/-- `batchApplyMinLengthPenalty`: thread `tid` handles row
`bid = tid / end_ids_size` and end-id slot `eid = tid % end_ids_size`;
when `bid < batch_size`, it reads
`end_id = end_ids[bid * end_ids_size + eid]` and, if `end_id > 0` and
`sequence_lengths[bid] + 1 < min_lengths[bid]`, stores
`-getMaxValue<T>()` at flat cell `bid * vocab_size_padded + end_id`.
(The launch in `invokeMinLengthPenalty` swaps the grid and block
dimension arguments, but the thread count `block.x * grid.x` and the set
of covered `tid`s are unchanged, so the behaviour is the same.)  All
writes carry the same sentinel, so the fold is the parallel semantics. -/
def batchApplyMinLengthPenalty (maxT : ℚ) (logits : ℤ → ℚ)
    (min_lengths sequence_lengths : ℕ → ℤ) (vocab_size_padded batch_size : ℕ)
    (end_ids : ℕ → ℤ) (end_ids_size : ℕ) : ℤ → ℚ :=
  penaltyFold
    (fun tid => tid / end_ids_size < batch_size ∧
      0 < end_ids (tid / end_ids_size * end_ids_size + tid % end_ids_size) ∧
      sequence_lengths (tid / end_ids_size) + 1 < min_lengths (tid / end_ids_size))
    (fun tid => ((tid / end_ids_size : ℕ) : ℤ) * (vocab_size_padded : ℤ) +
      end_ids (tid / end_ids_size * end_ids_size + tid % end_ids_size))
    (fun _ => -maxT)
    (batch_size * end_ids_size)
    logits

end Turbomind

/-- **C5.** Minimum-length penalty: for row `bid` and column `c` of that
row (all end ids in `[0, vocab_size_padded)` so writes stay inside their
row), the cell is forced to `-MAX_T_VAL` when some configured end id of
the row equals `c` with `c > 0` and `sequence_length + 1 < min_length`,
and is left unchanged otherwise — end ids `≤ 0` are skipped, each end id
is masked independently, and no other logit of the row is modified. -/
theorem C5_min_length (maxT : ℚ) (L : ℤ → ℚ) (min_lengths sequence_lengths : ℕ → ℤ)
    (vocab_size_padded batch_size end_ids_size bid : ℕ) (end_ids : ℕ → ℤ) (c : ℤ)
    (hbid : bid < batch_size) (hc0 : 0 ≤ c) (hc : c < (vocab_size_padded : ℤ))
    (hbound : ∀ b, b < batch_size → ∀ e, e < end_ids_size →
      end_ids (b * end_ids_size + e) < (vocab_size_padded : ℤ)) :
    ((∃ e, e < end_ids_size ∧ end_ids (bid * end_ids_size + e) = c ∧ 0 < c ∧
        sequence_lengths bid + 1 < min_lengths bid) →
      batchApplyMinLengthPenalty maxT L min_lengths sequence_lengths
        vocab_size_padded batch_size end_ids end_ids_size
        ((bid : ℤ) * (vocab_size_padded : ℤ) + c) = -maxT) ∧
    ((∀ e, e < end_ids_size → ¬ (end_ids (bid * end_ids_size + e) = c ∧ 0 < c ∧
        sequence_lengths bid + 1 < min_lengths bid)) →
      batchApplyMinLengthPenalty maxT L min_lengths sequence_lengths
        vocab_size_padded batch_size end_ids end_ids_size
        ((bid : ℤ) * (vocab_size_padded : ℤ) + c)
        = L ((bid : ℤ) * (vocab_size_padded : ℤ) + c)) := by
  constructor
  · rintro ⟨e, he, heq, hcpos, hlen⟩
    have hesz : 0 < end_ids_size := by omega
    have h1 : (bid * end_ids_size + e) / end_ids_size = bid := by
      rw [show bid * end_ids_size + e = end_ids_size * bid + e by ring,
        Nat.mul_add_div hesz, Nat.div_eq_of_lt he, Nat.add_zero]
    have h2 : (bid * end_ids_size + e) % end_ids_size = e := by
      rw [Nat.add_comm, Nat.add_mul_mod_self_right]
      exact Nat.mod_eq_of_lt he
    apply penaltyFold_hit _ _ _ (fun _ => -maxT) (fun i _ => rfl)
    refine ⟨bid * end_ids_size + e, ?_, ?_, ?_⟩
    · calc bid * end_ids_size + e < bid * end_ids_size + end_ids_size :=
          Nat.add_lt_add_left he _
      _ = (bid + 1) * end_ids_size := by ring
      _ ≤ batch_size * end_ids_size := Nat.mul_le_mul_right _ (by omega)
    · rw [h1, h2]
      exact ⟨hbid, by rw [heq]; exact hcpos, hlen⟩
    · rw [h1, h2, heq]
  · intro hmiss
    apply penaltyFold_miss
    intro tid htid hP heqkey
    have hesz : 0 < end_ids_size := by
      by_contra h
      push_neg at h
      have h0 : end_ids_size = 0 := by omega
      rw [h0, Nat.mul_zero] at htid
      exact absurd htid (Nat.not_lt_zero _)
    obtain ⟨hb, hpos, hlen⟩ := hP
    have he'lt : tid % end_ids_size < end_ids_size := Nat.mod_lt _ hesz
    have hend : end_ids (tid / end_ids_size * end_ids_size + tid % end_ids_size)
        < (vocab_size_padded : ℤ) := hbound _ hb _ he'lt
    have hvsp : (0 : ℤ) < (vocab_size_padded : ℤ) := by omega
    -- uniqueness of the Euclidean decomposition of the flat cell index
    have l1 : (((tid / end_ids_size : ℕ) : ℤ) * (vocab_size_padded : ℤ) +
        end_ids (tid / end_ids_size * end_ids_size + tid % end_ids_size))
          / (vocab_size_padded : ℤ) = ((tid / end_ids_size : ℕ) : ℤ) := by
      rw [add_comm, Int.add_mul_ediv_right _ _ (ne_of_gt hvsp),
        Int.ediv_eq_zero_of_lt hpos.le hend, zero_add]
    have l2 : (((bid : ℕ) : ℤ) * (vocab_size_padded : ℤ) + c) / (vocab_size_padded : ℤ)
        = (bid : ℤ) := by
      rw [add_comm, Int.add_mul_ediv_right _ _ (ne_of_gt hvsp),
        Int.ediv_eq_zero_of_lt hc0 hc, zero_add]
    rw [heqkey] at l1
    have hbb : ((tid / end_ids_size : ℕ) : ℤ) = (bid : ℤ) := l1.symm.trans l2
    have hbbn : tid / end_ids_size = bid := by exact_mod_cast hbb
    have hec : end_ids (bid * end_ids_size + tid % end_ids_size) = c := by
      rw [hbbn] at heqkey
      exact add_left_cancel heqkey
    rw [hbbn] at hpos hlen
    exact hmiss _ he'lt ⟨hec, by rw [← hec]; exact hpos, hlen⟩

/-- **C5 witness.** Row 0 with end-id list `[0, 2]`,
`sequence_length = 3`, `min_length = 5`, padded width 10: the sentinel
end id 0 masks nothing, while end id 2 forces column 2 to `-65504`;
column 0 is unchanged. -/
theorem C5_min_length_witness :
    batchApplyMinLengthPenalty 65504 (fun _ => 7) (fun _ => 5) (fun _ => 3)
      10 1 (fun i => if i = 1 then 2 else 0) 2 ((0 : ℤ) * (10 : ℤ) + 2)
      = -65504 ∧
    batchApplyMinLengthPenalty 65504 (fun _ => 7) (fun _ => 5) (fun _ => 3)
      10 1 (fun i => if i = 1 then 2 else 0) 2 ((0 : ℤ) * (10 : ℤ) + 0)
      = (fun _ => (7 : ℚ)) ((0 : ℤ) * (10 : ℤ) + 0) := by
  constructor
  · exact (C5_min_length 65504 (fun _ => 7) (fun _ => 5) (fun _ => 3) 10 1 2 0
      (fun i => if i = 1 then 2 else 0) 2 (by norm_num) (by norm_num)
      (by norm_num) (by decide)).1 ⟨1, by decide⟩
  · exact (C5_min_length 65504 (fun _ => 7) (fun _ => 5) (fun _ => 3) 10 1 2 0
      (fun i => if i = 1 then 2 else 0) 0 (by norm_num) (by norm_num)
      (by norm_num) (by decide)).2 (by decide)

namespace Turbomind

/-- Index selector of the indexed-copy kernel: a null index list means
identity indices (slot `k` maps to `k`). -/
def idxAt : Option (List ℕ) → ℕ → ℕ
  | none, k => k
  | some l, k => l.getD k 0

/-- Modelled from the spec: the device kernel `invokeIndexedCopy` is only
declared in this excerpt (`llama_kernels.h`; its body is missing from
src/).  Per the spec it copies, for every `k < count`, each per-slot
buffer's contents from slot `src_idx[k]` to slot `dst_idx[k]` (identity
indices for a null list), reading pre-copy contents ("contents at each
dst_idx[k] equal the pre-compaction contents at src_idx[k]").  One
generic buffer is modelled; the N buffers of one call all use the same
index lists. -/
def invokeIndexedCopy {α : Type} (src_idx dst_idx : Option (List ℕ)) (count : ℕ)
    (buf : ℕ → α) : ℕ → α :=
  (List.range count).foldl
    (fun acc k => Function.update acc (idxAt dst_idx k) (buf (idxAt src_idx k)))
    buf

/-- `LlamaBatch::IndexedCopy` (source, `LlamaBatch.h`): checks
`FT_CHECK(src_idx.size() == dst_idx.size() || (src_idx.empty() ^ dst_idx.empty()))`
(modelled as `none` on failure), passes null for an empty list and
`max` of the two lengths as the count.  (`IndexedCopyImpl`'s early
return on `count == 0` coincides with the empty fold.) -/
def IndexedCopy {α : Type} (src_idx dst_idx : List ℕ) (buf : ℕ → α) :
    Option (ℕ → α) :=
  if src_idx.length = dst_idx.length ∨
      (src_idx.isEmpty ≠ dst_idx.isEmpty) then
    some (invokeIndexedCopy
      (if src_idx.isEmpty then none else some src_idx)
      (if dst_idx.isEmpty then none else some dst_idx)
      (max src_idx.length dst_idx.length) buf)
  else none

lemma invokeIndexedCopy_succ {α : Type} (src_idx dst_idx : Option (List ℕ))
    (n : ℕ) (buf : ℕ → α) :
    invokeIndexedCopy src_idx dst_idx (n + 1) buf
      = Function.update (invokeIndexedCopy src_idx dst_idx n buf)
          (idxAt dst_idx n) (buf (idxAt src_idx n)) := by
  unfold invokeIndexedCopy
  rw [List.range_succ, List.foldl_append, List.foldl_cons, List.foldl_nil]

/-- Slots never named as a destination are unchanged by the copy. -/
lemma invokeIndexedCopy_miss {α : Type} (src_idx dst_idx : Option (List ℕ))
    (count : ℕ) (buf : ℕ → α) (i : ℕ)
    (h : ∀ k, k < count → idxAt dst_idx k ≠ i) :
    invokeIndexedCopy src_idx dst_idx count buf i = buf i := by
  induction count with
  | zero => rfl
  | succ n ih =>
    rw [invokeIndexedCopy_succ,
      Function.update_noteq (Ne.symm (h n (Nat.lt_succ_self n))) _ _]
    exact ih (fun k hk => h k (by omega))

/-- The destination of pair `k` receives the pre-copy contents of the
source of pair `k`, provided no later pair writes the same slot. -/
lemma invokeIndexedCopy_hit {α : Type} (src_idx dst_idx : Option (List ℕ))
    (count : ℕ) (buf : ℕ → α) (k : ℕ) (hk : k < count)
    (hlater : ∀ j, k < j → j < count → idxAt dst_idx j ≠ idxAt dst_idx k) :
    invokeIndexedCopy src_idx dst_idx count buf (idxAt dst_idx k)
      = buf (idxAt src_idx k) := by
  induction count with
  | zero => omega
  | succ n ih =>
    rw [invokeIndexedCopy_succ]
    by_cases hkn : k = n
    · subst hkn
      rw [Function.update_same]
    · have hk' : k < n := by omega
      rw [Function.update_noteq
        (Ne.symm (hlater n (by omega) (Nat.lt_succ_self n))) _ _]
      exact ih hk' (fun j hj hj' => hlater j hj (by omega))

end Turbomind


/-- **C8.** Indexed copy (batch compaction): with source and destination
index lists of the same length (one-side-empty meaning identity is the
other accepted shape of the length check), destination slots pairwise
distinct and disjoint from the sources, the copy succeeds, every buffer
holds at `dst_idx[k]` the pre-copy contents of `src_idx[k]`, and every
slot named in neither list is unchanged. -/
theorem C8_indexed_copy {α : Type} (src_idx dst_idx : List ℕ) (buf : ℕ → α)
    (hlen : src_idx.length = dst_idx.length)
    (hnodup : dst_idx.Nodup)
    (hdisj : ∀ i ∈ src_idx, i ∉ dst_idx) :
    ∃ buf', IndexedCopy src_idx dst_idx buf = some buf'
      ∧ (∀ k, k < dst_idx.length →
          buf' (dst_idx.getD k 0) = buf (src_idx.getD k 0))
      ∧ (∀ i, i ∉ src_idx → i ∉ dst_idx → buf' i = buf i) := by
  have hcnt : max src_idx.length dst_idx.length = dst_idx.length := by omega
  refine ⟨_, by rw [IndexedCopy, if_pos (Or.inl hlen)], ?_, ?_⟩
  · intro k hk
    have hdne : dst_idx ≠ [] := by
      intro h
      rw [h] at hk
      simp at hk
    have hsne : src_idx ≠ [] := by
      intro h
      rw [h] at hlen
      simp only [List.length_nil] at hlen
      rw [← hlen] at hk
      exact absurd hk (by omega)
    rw [if_neg (by simpa [List.isEmpty_iff] using hsne),
      if_neg (by simpa [List.isEmpty_iff] using hdne), hcnt]
    have hlater : ∀ j, k < j → j < dst_idx.length →
        idxAt (some dst_idx) j ≠ idxAt (some dst_idx) k := by
      intro j hj hj' heq
      have h1 : dst_idx.getD j 0 = dst_idx[j] := List.getD_eq_getElem dst_idx 0 hj'
      have h2 : dst_idx.getD k 0 = dst_idx[k] := List.getD_eq_getElem dst_idx 0 hk
      have hget : dst_idx[j] = dst_idx[k] := by
        rw [← h1, ← h2]
        exact heq
      have : j = k := (hnodup.getElem_inj_iff).mp hget
      omega
    exact invokeIndexedCopy_hit (some src_idx) (some dst_idx) dst_idx.length
      buf k hk hlater
  · intro i hsrc hdst
    by_cases hdn : dst_idx = []
    · subst hdn
      have hs0 : src_idx = [] := by
        cases src_idx with
        | nil => rfl
        | cons a l => simp at hlen
      subst hs0
      rfl
    · have hsn : src_idx ≠ [] := by
        intro h
        rw [h] at hlen
        simp only [List.length_nil] at hlen
        exact hdn (List.length_eq_zero.mp hlen.symm)
      rw [if_neg (by simpa [List.isEmpty_iff] using hsn),
        if_neg (by simpa [List.isEmpty_iff] using hdn), hcnt]
      apply invokeIndexedCopy_miss
      intro k hk heq
      apply hdst
      rw [← heq]
      show dst_idx.getD k 0 ∈ dst_idx
      rw [List.getD_eq_getElem dst_idx 0 hk]
      exact List.getElem_mem hk

/-- **C8 witness.** Copy slot 0 to slot 2 on the buffer `i ↦ i`: slot 2
receives the old contents of slot 0, slot 1 is unchanged. -/
theorem C8_indexed_copy_witness :
    ∃ buf', IndexedCopy [0] [2] (fun i => i) = some buf'
      ∧ buf' ([2].getD 0 0) = (fun i => i) ([0].getD 0 0)
      ∧ buf' 1 = (fun i => i) 1 := by
  obtain ⟨buf', hbuf, hdst, hun⟩ :=
    C8_indexed_copy [0] [2] (fun i => i) (by norm_num) (by norm_num) (by decide)
  exact ⟨buf', hbuf, hdst 0 (by norm_num), hun 1 (by decide) (by decide)⟩

namespace Turbomind

/-- `BatchState` (source, `LlamaBatch.h`): the two region counters of a
batch-state buffer.  The parallel per-slot arrays
(`h_prompt_length`, `h_context_length`, `h_finished`, `curand_state`,
`output_ids`, `sequences`, `requests`, `errors`, …) are indexed
identically by slot and are elided here; the layout is
`|<-- existing -->|<-- swap-in -->|` = `[0, active_size)` decoding,
`[active_size, size)` mid-admission, `[size, max_batch_size)` free. -/
structure BatchState where
  active_size : ℕ
  size : ℕ

/-- The spec's Batch State invariant
`0 ≤ active_size ≤ size ≤ max_batch_size` (the lower bound is carried by
the ℕ representation). -/
def BatchState.wf (max_batch_size : ℕ) (s : BatchState) : Prop :=
  s.active_size ≤ s.size ∧ s.size ≤ max_batch_size

/-- Initial state of the whole Scheduler: empty (`size=0, active_size=0`). -/
def initialBatchState : BatchState := ⟨0, 0⟩

/-- Modelled from the spec: the scheduler operation bodies
(`LlamaBatch.cc`) are not part of src/ — only their declarations in
`LlamaBatch.h` are.  One decode-iteration step of the scheduler, as §4.1
describes the operations' effect on the region counters:
`ProcessInferRequests` reserves free slots for `k` newly accepted requests
(bounded by capacity) in the swap-in region; `Initialize` turns every
mid-admission slot Active; `Finish` releases `k` terminated active slots
(compacting, so both counters drop); `Interrupt` evicts `k` active slots
likewise; compaction/copy-state reorders slots without changing the
counters. -/
inductive SchedulerStep (max_batch_size : ℕ) : BatchState → BatchState → Prop
  | processInferRequests (s : BatchState) (k : ℕ)
      (h : s.size + k ≤ max_batch_size) :
      SchedulerStep max_batch_size s ⟨s.active_size, s.size + k⟩
  | activate (s : BatchState) :
      SchedulerStep max_batch_size s ⟨s.size, s.size⟩
  | finish (s : BatchState) (k : ℕ) (h : k ≤ s.active_size) :
      SchedulerStep max_batch_size s ⟨s.active_size - k, s.size - k⟩
  | interrupt (s : BatchState) (k : ℕ) (h : k ≤ s.active_size) :
      SchedulerStep max_batch_size s ⟨s.active_size - k, s.size - k⟩
  | compactActive (s : BatchState) :
      SchedulerStep max_batch_size s s

/-- Reachability of a batch state from the empty initial state through
scheduler operations. -/
def SchedulerReachable (max_batch_size : ℕ) (s : BatchState) : Prop :=
  Relation.ReflTransGen (SchedulerStep max_batch_size) initialBatchState s

end Turbomind

/-- **C9.** Batch State invariant: in every state reachable from the
initial empty state through scheduler operations (admission, swap-in
initialization, finish, eviction, compaction),
`0 ≤ active_size ≤ size ≤ max_batch_size` holds. -/
theorem C9_batch_state_invariant (max_batch_size : ℕ) (s : BatchState)
    (h : SchedulerReachable max_batch_size s) :
    0 ≤ s.active_size ∧ s.active_size ≤ s.size ∧ s.size ≤ max_batch_size := by
  induction h with
  | refl => exact ⟨Nat.zero_le _, le_refl _, Nat.zero_le _⟩
  | tail hreach hstep ih =>
    obtain ⟨-, h1, h2⟩ := ih
    cases hstep <;> first
      | exact ⟨Nat.zero_le _, h1, h2⟩
      | (dsimp only; omega)

/-- **C9 witness.** With `max_batch_size = 4`: accept two requests,
initialize them, finish one — the resulting state `⟨1, 1⟩` is reachable
and satisfies the invariant. -/
theorem C9_batch_state_invariant_witness :
    0 ≤ (Turbomind.BatchState.mk 1 1).active_size ∧
    (Turbomind.BatchState.mk 1 1).active_size ≤ (Turbomind.BatchState.mk 1 1).size ∧
    (Turbomind.BatchState.mk 1 1).size ≤ 4 :=
  C9_batch_state_invariant 4 ⟨1, 1⟩
    (Relation.ReflTransGen.tail
      (Relation.ReflTransGen.tail
        (Relation.ReflTransGen.tail Relation.ReflTransGen.refl
          (SchedulerStep.processInferRequests ⟨0, 0⟩ 2 (by norm_num)))
        (SchedulerStep.activate ⟨0, 2⟩))
      (SchedulerStep.finish ⟨2, 2⟩ 1 (by norm_num)))
